import Mathlib

/-!
Shallow embedding of `src/team_former/make_teams.py` (`allocate_teams`).

The Python function reads a student roster, builds a CP-SAT model
(assignment / team-usage / lab-label booleans plus bounded integer
auxiliaries for the WAM-balancing objective), solves it, and decodes the
solved assignment into a per-student team label.

The embedding below represents the roster, the configuration surface, a
candidate solver assignment (`Solution`), the constraint set posted on the
model (`modelConstraints`, one conjunct per `model.Add...` call in the
source), the minimized objective (`objectiveExpr`), the decoding loop
(`finalTeams`, the `final_teams` list of lines 119-126), and the
status-dispatching tail of the pipeline (`allocateOutcome`).
-/

namespace TeamFormer

/-- Integer value of a boolean model variable, as CP-SAT treats booleans
inside linear expressions. -/
def boolToInt (b : Bool) : ℤ := if b then 1 else 0

/-- One roster record after the numeric canonicalization on lines 37-40:
`gender` is the raw string column, `wam` the result of
`student_df["wam"].astype(int)`, `lab` the result of
`student_df["lab"].astype(int)`. -/
structure Student where
  gender : String
  wam : ℤ
  lab : ℤ
deriving DecidableEq, Repr

/-- The configuration parameters of `allocate_teams` that reach the model
(`input_file`, `sheet_name`, `output_file` and `max_solve_time` never do). -/
structure Config where
  wamWeight : ℚ
  minTeamSize : ℕ
  maxTeamSize : ℕ
deriving DecidableEq, Repr

/-- A candidate valuation of every decision variable created by the model:
`assign[i, team]`, `team_used[team]`, `lab_team[team, lab]`, and the
per-team integer auxiliaries `wam_sum`, `team_size`, `wam_diff`,
`squared_diff` of lines 94-102. -/
structure Solution where
  assign : ℕ → ℕ → Bool
  teamUsed : ℕ → Bool
  labTeam : ℕ → ℤ → Bool
  wamSum : ℕ → ℤ
  sizeVar : ℕ → ℤ
  diff : ℕ → ℤ
  squaredDiff : ℕ → ℤ

/-- `num_students = len(students)` (line 36). -/
def numStudents (roster : List Student) : ℕ := roster.length

/-- Row `i` of the roster (indexing mirrors `range(num_students)`; the
default is never reached at in-range indices). -/
def studentAt (roster : List Student) (i : ℕ) : Student :=
  roster.getD i ⟨"", 0, 0⟩

/-- `genders[i]` (line 37). -/
def gender (roster : List Student) (i : ℕ) : String :=
  (studentAt roster i).gender

/-- `wams[i]` (line 38). -/
def wam (roster : List Student) (i : ℕ) : ℤ :=
  (studentAt roster i).wam

/-- `student_labs[i]` (line 40). -/
def studentLab (roster : List Student) (i : ℕ) : ℤ :=
  (studentAt roster i).lab

/-- `lab_ids = sorted(set(student_df["lab"].astype(int).values))` (line 39):
the distinct lab codes in increasing order. -/
def labIds (roster : List Student) : List ℤ :=
  ((roster.map (·.lab)).dedup).insertionSort (· ≤ ·)

/-- `global_avg_wam = sum(wams) // len(wams)` (line 41); `Int.fdiv` is
Python floor division. -/
def globalAvgWam (roster : List Student) : ℤ :=
  Int.fdiv (roster.map (·.wam)).sum (roster.length)

/-- `max_teams = num_students // min_team_size` (line 42). -/
def maxTeams (roster : List Student) (cfg : Config) : ℕ :=
  numStudents roster / cfg.minTeamSize

/-- The linear expression `sum(assign[i, team] for i in range(num_students))`
used as `team_size` on line 65 and again on line 96. -/
def teamSizeExpr (roster : List Student) (sol : Solution) (t : ℕ) : ℤ :=
  ((List.range (numStudents roster)).map fun i => boolToInt (sol.assign i t)).sum

/-- The linear expression
`sum(wams[i] * assign[i, team] for i in range(num_students))` of line 98. -/
def wamSumExpr (roster : List Student) (sol : Solution) (t : ℕ) : ℤ :=
  ((List.range (numStudents roster)).map fun i =>
    wam roster i * boolToInt (sol.assign i t)).sum

/-- The per-student linear expression
`sum(assign[i, team] for team in range(max_teams))` of line 62. -/
def assignCountOfStudent (roster : List Student) (cfg : Config) (sol : Solution)
    (i : ℕ) : ℤ :=
  ((List.range (maxTeams roster cfg)).map fun t => boolToInt (sol.assign i t)).sum

/-- The comprehension
`[assign[i, team] for i in range(num_students) if genders[i] == g]`
(lines 80-85), as the list of selected student indices. -/
def genderIndices (roster : List Student) (g : String) : List ℕ :=
  (List.range (numStudents roster)).filter fun i => gender roster i == g

/-- The value of `sum(...)` over the gender-filtered assignment variables of
a team (lines 87 and 89). -/
def genderAssignSum (roster : List Student) (sol : Solution) (g : String)
    (t : ℕ) : ℤ :=
  ((genderIndices roster g).map fun i => boolToInt (sol.assign i t)).sum

/-- Line 62: `model.Add(sum(assign[i, team] for team in range(max_teams)) == 1)`
for every student. -/
def totalityOK (roster : List Student) (cfg : Config) (sol : Solution) : Prop :=
  ∀ i ∈ List.range (numStudents roster), assignCountOfStudent roster cfg sol i = 1

/-- Line 66: `model.Add(team_size <= max_team_size)` for every team. -/
def capacityOK (roster : List Student) (cfg : Config) (sol : Solution) : Prop :=
  ∀ t ∈ List.range (maxTeams roster cfg),
    teamSizeExpr roster sol t ≤ (cfg.maxTeamSize : ℤ)

/-- Lines 67-68: `team_size >= min_team_size` enforced when `team_used[team]`
holds and `team_size == 0` enforced when it does not. -/
def activationOK (roster : List Student) (cfg : Config) (sol : Solution) : Prop :=
  ∀ t ∈ List.range (maxTeams roster cfg),
    (sol.teamUsed t = true → (cfg.minTeamSize : ℤ) ≤ teamSizeExpr roster sol t) ∧
    (sol.teamUsed t = false → teamSizeExpr roster sol t = 0)

/-- Line 71: `model.AddExactlyOne(lab_team[team, lab] for lab in lab_ids)`. -/
def labChoiceOK (roster : List Student) (cfg : Config) (sol : Solution) : Prop :=
  ∀ t ∈ List.range (maxTeams roster cfg),
    (labIds roster).countP (fun l => sol.labTeam t l) = 1

/-- Lines 75-77: `lab_team[team, student_labs[i]] == 1` enforced when
`assign[i, team]` holds. -/
def labLinkOK (roster : List Student) (cfg : Config) (sol : Solution) : Prop :=
  ∀ i ∈ List.range (numStudents roster), ∀ t ∈ List.range (maxTeams roster cfg),
    sol.assign i t = true → sol.labTeam t (studentLab roster i) = true

/-- Lines 86-89: `sum(male_students) != 1` posted only when `male_students`
is nonempty, and symmetrically for `female_students`. -/
def genderOK (roster : List Student) (cfg : Config) (sol : Solution) : Prop :=
  ∀ t ∈ List.range (maxTeams roster cfg),
    (genderIndices roster ("M") ≠ [] → genderAssignSum roster sol ("M") t ≠ 1) ∧
    (genderIndices roster ("F") ≠ [] → genderAssignSum roster sol ("F") t ≠ 1)

/-- The declared domain of `wam_sum` on line 94: `NewIntVar(0, 100 * max_team_size, ...)`. -/
def wamSumUpperBound (cfg : Config) : ℤ := 100 * (cfg.maxTeamSize : ℤ)

/-- The declared domain of `wam_diff` on line 100: `NewIntVar(-500, 500, ...)`,
a constant independent of the configuration. -/
def diffBound : ℤ := 500

/-- The declared domain of `squared_diff` on line 102: `NewIntVar(0, 250000, ...)`,
a constant independent of the configuration. -/
def squaredDiffUpperBound : ℤ := 250000

/-- Lines 93-104: the variable domains of `wam_sum`, `team_size`, `wam_diff`
and `squared_diff`, the channeling equalities of lines 96-101, and
`model.AddMultiplicationEquality(squared_diff, [diff, diff])` of line 103. -/
def wamAuxOK (roster : List Student) (cfg : Config) (sol : Solution) : Prop :=
  ∀ t ∈ List.range (maxTeams roster cfg),
    (0 ≤ sol.wamSum t ∧ sol.wamSum t ≤ wamSumUpperBound cfg) ∧
    (0 ≤ sol.sizeVar t ∧ sol.sizeVar t ≤ (cfg.maxTeamSize : ℤ)) ∧
    sol.sizeVar t = teamSizeExpr roster sol t ∧
    sol.wamSum t = wamSumExpr roster sol t ∧
    (-diffBound ≤ sol.diff t ∧ sol.diff t ≤ diffBound) ∧
    sol.diff t = sol.wamSum t - sol.sizeVar t * globalAvgWam roster ∧
    (0 ≤ sol.squaredDiff t ∧ sol.squaredDiff t ≤ squaredDiffUpperBound) ∧
    sol.squaredDiff t = sol.diff t * sol.diff t

/-- The full constraint set posted on the CP-SAT model by lines 61-104. -/
def modelConstraints (roster : List Student) (cfg : Config) (sol : Solution) : Prop :=
  totalityOK roster cfg sol ∧ capacityOK roster cfg sol ∧
  activationOK roster cfg sol ∧ labChoiceOK roster cfg sol ∧
  labLinkOK roster cfg sol ∧ genderOK roster cfg sol ∧ wamAuxOK roster cfg sol

/-- The constraints of lines 61-89 only, i.e. the model minus the bounded
objective auxiliaries of lines 93-104. -/
def structuralConstraints (roster : List Student) (cfg : Config) (sol : Solution) : Prop :=
  totalityOK roster cfg sol ∧ capacityOK roster cfg sol ∧
  activationOK roster cfg sol ∧ labChoiceOK roster cfg sol ∧
  labLinkOK roster cfg sol ∧ genderOK roster cfg sol

instance (roster : List Student) (cfg : Config) (sol : Solution) :
    Decidable (modelConstraints roster cfg sol) := by
  unfold modelConstraints totalityOK capacityOK activationOK labChoiceOK
    labLinkOK genderOK wamAuxOK
  infer_instance

instance (roster : List Student) (cfg : Config) (sol : Solution) :
    Decidable (structuralConstraints roster cfg sol) := by
  unfold structuralConstraints totalityOK capacityOK activationOK labChoiceOK
    labLinkOK genderOK
  infer_instance

/-- Python `int(q)`: truncation toward zero, applied by
`wams = student_df["wam"].astype(int)` elementwise (line 38) and by
`int(wam_weight * 1000)` (line 107). -/
def truncToInt (q : ℚ) : ℤ := if 0 ≤ q then ⌊q⌋ else ⌈q⌉

/-- Line 106-108: the minimized objective
`sum(team_used) + int(wam_weight * 1000) * sum(squared_deviation_terms)`. -/
def objectiveExpr (roster : List Student) (cfg : Config) (sol : Solution) : ℤ :=
  ((List.range (maxTeams roster cfg)).map fun t => boolToInt (sol.teamUsed t)).sum +
    truncToInt (cfg.wamWeight * 1000) *
      ((List.range (maxTeams roster cfg)).map fun t => sol.squaredDiff t).sum

/-- Modelled from the spec (section 4.4): the claimed objective
`sum of UsageVariable + round(wam_weight x 1000) * sum of sq(t)`, whose
coefficient uses rounding where the source uses `int(...)` truncation. -/
def objectiveClaimed (roster : List Student) (cfg : Config) (sol : Solution) : ℤ :=
  ((List.range (maxTeams roster cfg)).map fun t => boolToInt (sol.teamUsed t)).sum +
    round (cfg.wamWeight * 1000) *
      ((List.range (maxTeams roster cfg)).map fun t => sol.squaredDiff t).sum

/-- The inner decoding loop of lines 122-126 for one value of `team`:
`members = [i for i in range(num_students) if solver.Value(assign[i, team])]`
followed by `for student in members: final_teams[student] = team`. -/
def decodeInner (roster : List Student) (sol : Solution) (t : ℕ)
    (acc : List ℤ) : List ℤ :=
  (List.range (numStudents roster)).foldl
    (fun a i => if sol.assign i t then a.set i (t : ℤ) else a) acc

/-- Lines 119-126: `final_teams = [-1] * num_students` updated team by team
in increasing order of `team`. -/
def finalTeams (roster : List Student) (cfg : Config) (sol : Solution) : List ℤ :=
  (List.range (maxTeams roster cfg)).foldl
    (fun acc t => decodeInner roster sol t acc)
    (List.replicate (numStudents roster) (-1))

/-- The decoded team label of student `i` (the entry of `final_teams`
written into the `team` column on line 128). -/
def decodedTeam (roster : List Student) (cfg : Config) (sol : Solution)
    (i : ℕ) : ℤ :=
  (finalTeams roster cfg sol).getD i (-1)

/-- Number of students decoded into team label `l`. -/
def decodedTeamCount (roster : List Student) (cfg : Config) (sol : Solution)
    (l : ℤ) : ℕ :=
  (List.range (numStudents roster)).countP fun i =>
    decodedTeam roster cfg sol i == l

/-- Number of students of gender label `g` decoded into team label `l`. -/
def decodedGenderCount (roster : List Student) (cfg : Config) (sol : Solution)
    (g : String) (l : ℤ) : ℕ :=
  (List.range (numStudents roster)).countP fun i =>
    (decodedTeam roster cfg sol i == l) && (gender roster i == g)

/-- The outcome vocabulary of the design (section 7 of the specification).
The translated pipeline only ever produces `assigned` or `noFeasible`:
`allocate_teams` contains no validation, integrity or range check and no
`raise` statement, so the three error constructors are never reached. -/
inductive AllocOutcome where
  | assigned : List ℤ → AllocOutcome
  | noFeasible : AllocOutcome
  | validationError : String → AllocOutcome
  | integrityError : String → AllocOutcome
  | rangeError : String → AllocOutcome
deriving DecidableEq, Repr

/-- The solver's answer: `feasible` models
`status in (cp_model.OPTIMAL, cp_model.FEASIBLE)` (line 115), and `sol` the
variable values readable through `solver.Value` after a successful solve. -/
structure SolverResponse where
  feasible : Bool
  sol : Solution

/-- The CP-SAT contract: a status of OPTIMAL or FEASIBLE carries variable
values satisfying every posted constraint. -/
def solverContract (roster : List Student) (cfg : Config)
    (r : SolverResponse) : Prop :=
  r.feasible = true → modelConstraints roster cfg r.sol

instance (roster : List Student) (cfg : Config) (r : SolverResponse) :
    Decidable (solverContract roster cfg r) := by
  unfold solverContract
  infer_instance

/-- Lines 115-132: on a non-successful status the function prints and
returns `None`; otherwise it decodes `final_teams` and returns the
augmented frame. -/
def allocateOutcome (roster : List Student) (cfg : Config)
    (r : SolverResponse) : AllocOutcome :=
  if r.feasible then AllocOutcome.assigned (finalTeams roster cfg r.sol)
  else AllocOutcome.noFeasible

/-- Whether `student_df.to_excel(output_file, ...)` runs (line 129): the
write sits after the early `return None` of line 117, so it happens exactly
on a successful status. -/
def writesOutput (r : SolverResponse) : Bool := r.feasible

/-- One raw roster record as read from the spreadsheet, before the
`astype(int)` canonicalization: `wam` is still a fractional score. -/
structure RawStudent where
  gender : String
  wam : ℚ
  lab : ℤ
deriving DecidableEq, Repr

/-- Lines 37-40 applied to one raw record: `astype(int)` truncates the WAM
toward zero. -/
def toStudent (s : RawStudent) : Student :=
  ⟨s.gender, truncToInt s.wam, s.lab⟩

/-- The canonicalized roster the model is built from. -/
def prepRoster (raw : List RawStudent) : List Student :=
  raw.map toStudent

/-- `global_avg_wam` computed from the raw roster, composing lines 38 and 41. -/
def globalAvgWamRaw (raw : List RawStudent) : ℤ :=
  globalAvgWam (prepRoster raw)

/-- An all-false, all-zero valuation, used to build concrete solver
responses with a non-successful status. -/
def trivialSolution : Solution :=
  ⟨fun _ _ => false, fun _ => false, fun _ _ => false,
   fun _ => 0, fun _ => 0, fun _ => 0, fun _ => 0⟩

/-- Fixture: four students, two labelled M and two labelled F, one lab,
equal WAMs. -/
def rosterA : List Student :=
  [⟨"M", 70, 1⟩, ⟨"M", 70, 1⟩, ⟨"F", 70, 1⟩, ⟨"F", 70, 1⟩]

/-- Fixture configuration: teams of exactly two. -/
def cfgA : Config := ⟨1 / 20, 2, 2⟩

/-- Fixture valuation: students 0 and 1 in slot 0, students 2 and 3 in
slot 1. -/
def solA : Solution where
  assign := fun i t => i / 2 == t
  teamUsed := fun _ => true
  labTeam := fun _ l => l == 1
  wamSum := fun _ => 140
  sizeVar := fun _ => 2
  diff := fun _ => 0
  squaredDiff := fun _ => 0

/-- Fixture solver response carrying `solA` with a successful status. -/
def respA : SolverResponse := ⟨true, solA⟩

/-- Fixture: three M students and one student with gender label O, forced
into a single team of four. -/
def rosterO : List Student :=
  [⟨"M", 70, 1⟩, ⟨"M", 70, 1⟩, ⟨"M", 70, 1⟩, ⟨"O", 70, 1⟩]

/-- Fixture configuration for `rosterO`: one team of exactly four. -/
def cfgO : Config := ⟨1 / 20, 4, 4⟩

/-- Fixture valuation for `rosterO`: everyone in slot 0. -/
def solO : Solution where
  assign := fun _ t => t == 0
  teamUsed := fun t => t == 0
  labTeam := fun _ l => l == 1
  wamSum := fun _ => 280
  sizeVar := fun _ => 4
  diff := fun _ => 0
  squaredDiff := fun _ => 0

/-- Fixture: two M students with WAMs 70 and 71, so the single team's WAM
deviation is exactly 1. -/
def rosterB : List Student :=
  [⟨"M", 70, 1⟩, ⟨"M", 71, 1⟩]

/-- Fixture configuration for `rosterB`: `wam_weight = 0.0999`, whose
thousandfold truncates to 99 but rounds to 100. -/
def cfgB : Config := ⟨999 / 10000, 2, 2⟩

/-- Fixture valuation for `rosterB`: both students in slot 0, deviation 1. -/
def solB : Solution where
  assign := fun _ t => t == 0
  teamUsed := fun t => t == 0
  labTeam := fun _ l => l == 1
  wamSum := fun _ => 141
  sizeVar := fun _ => 2
  diff := fun _ => 1
  squaredDiff := fun _ => 1

/-- Fixture: three students with `min_team_size = 3 > max_team_size = 2`,
a size-bound misconfiguration. -/
def rosterC : List Student :=
  [⟨"M", 70, 1⟩, ⟨"M", 70, 1⟩, ⟨"M", 70, 1⟩]

/-- Misconfigured sizes: minimum above maximum. -/
def cfgC : Config := ⟨1 / 20, 3, 2⟩

/-- Fixture: two students used to probe the decoder on degenerate
assignment values. -/
def rosterD : List Student :=
  [⟨"M", 70, 1⟩, ⟨"M", 70, 1⟩]

/-- Configuration for `rosterD`: two candidate slots. -/
def cfgD : Config := ⟨1 / 20, 1, 2⟩

/-- Degenerate valuation: student 0 has no true assignment variable,
student 1 has two. -/
def solD : Solution where
  assign := fun i _ => i == 1
  teamUsed := fun _ => true
  labTeam := fun _ l => l == 1
  wamSum := fun _ => 0
  sizeVar := fun _ => 0
  diff := fun _ => 0
  squaredDiff := fun _ => 0

/-- Solver response presenting `solD` as a successful solve. -/
def respD : SolverResponse := ⟨true, solD⟩

/-- Configuration with `min_team_size = 5` above the two-student roster of
`rosterD`. -/
def cfgE : Config := ⟨1 / 20, 5, 6⟩

/-- Solver response for a non-successful status. -/
def respE : SolverResponse := ⟨false, trivialSolution⟩

/-- Fixture: two students whose WAM 10000 exceeds the `wam_sum` domain
`100 * max_team_size = 200`. -/
def rosterW : List Student :=
  [⟨"M", 10000, 1⟩, ⟨"M", 10000, 1⟩]

/-- Configuration for `rosterW`: one team of exactly two. -/
def cfgW : Config := ⟨1 / 20, 2, 2⟩

/-- Valuation for `rosterW` satisfying every structural constraint: both
students in slot 0. -/
def solW : Solution where
  assign := fun _ t => t == 0
  teamUsed := fun t => t == 0
  labTeam := fun _ l => l == 1
  wamSum := fun _ => 20000
  sizeVar := fun _ => 2
  diff := fun _ => 0
  squaredDiff := fun _ => 0

/-- Raw roster with fractional WAMs 70.5 and 70.3. -/
def rawP : List RawStudent :=
  [⟨"M", 141 / 2, 1⟩, ⟨"F", 703 / 10, 1⟩]

/-- Raw roster with fractional WAMs 70 and 70.9: same truncations as
`rawP`. -/
def rawQ : List RawStudent :=
  [⟨"M", 70, 1⟩, ⟨"F", 709 / 10, 1⟩]

/-- Summing the 0/1 values of a boolean predicate over a list counts the
elements satisfying it, as CP-SAT's linear sums over boolean variables do. -/
theorem sum_boolToInt_countP (l : List α) (q : α → Bool) :
    ((l.map fun x => boolToInt (q x)).sum) = (l.countP q : ℤ) := by
  induction l with
  | nil => simp
  | cons a l ih =>
    rw [List.map_cons, List.sum_cons, List.countP_cons, ih]
    cases h : q a
    · simp [h, boolToInt]
    · simp only [h, if_true, boolToInt]
      push_cast
      ring

/-- A list with predicate count one has a unique element satisfying the
predicate. -/
theorem countP_eq_one_elim (l : List α) (q : α → Bool) (h : l.countP q = 1) :
    ∃ x ∈ l, q x = true ∧ ∀ y ∈ l, q y = true → y = x := by
  rw [List.countP_eq_length_filter] at h
  rcases List.length_eq_one.mp h with ⟨a, ha⟩
  have hmem : a ∈ l.filter q := by simp [ha]
  rw [List.mem_filter] at hmem
  refine ⟨a, hmem.1, hmem.2, fun y hy hqy => ?_⟩
  have hyf : y ∈ l.filter q := List.mem_filter.mpr ⟨hy, hqy⟩
  rw [ha] at hyf
  simpa using hyf

/-- A student satisfying the totality constraint sits in exactly one slot. -/
theorem totality_unique (roster : List Student) (cfg : Config) (sol : Solution)
    (h : totalityOK roster cfg sol) (i : ℕ) (hi : i < numStudents roster) :
    ∃ t, t < maxTeams roster cfg ∧ sol.assign i t = true ∧
      ∀ u, u < maxTeams roster cfg → sol.assign i u = true → u = t := by
  have h1 := h i (List.mem_range.mpr hi)
  unfold assignCountOfStudent at h1
  rw [sum_boolToInt_countP] at h1
  have h2 : (List.range (maxTeams roster cfg)).countP (fun t => sol.assign i t) = 1 := by
    exact_mod_cast h1
  rcases countP_eq_one_elim _ _ h2 with ⟨t, htm, hat, huniq⟩
  exact ⟨t, List.mem_range.mp htm, hat,
    fun u hu ha => huniq u (List.mem_range.mpr hu) ha⟩

/-- The inner decoding fold only ever touches entry `i` through the write
`final_teams[i] = team`. -/
theorem foldl_set_getD (sol : Solution) (t : ℕ) (i : ℕ) (d : ℤ)
    (js : List ℕ) :
    ∀ acc : List ℤ, i < acc.length →
      ((js.foldl (fun a j => if sol.assign j t then a.set j (t : ℤ) else a) acc).getD i d) =
        if i ∈ js ∧ sol.assign i t = true then (t : ℤ) else acc.getD i d := by
  induction js with
  | nil => intro acc _; simp
  | cons j js ih =>
    intro acc hi
    have hset_eq : (acc.set i (t : ℤ)).getD i d = (t : ℤ) := by
      rw [List.getD_eq_getElem?_getD, List.getElem?_set]
      simp [hi]
    have hset_ne : ∀ k : ℕ, k ≠ i → (acc.set k (t : ℤ)).getD i d = acc.getD i d := by
      intro k hk
      rw [List.getD_eq_getElem?_getD, List.getD_eq_getElem?_getD,
        List.getElem?_set]
      simp [hk]
    simp only [List.foldl_cons]
    have hlen : i < (if sol.assign j t then acc.set j (t : ℤ) else acc).length := by
      cases sol.assign j t <;> simpa [List.length_set]
    rw [ih _ hlen]
    by_cases hmem : i ∈ js ∧ sol.assign i t = true
    · rw [if_pos hmem, if_pos ⟨List.mem_cons_of_mem j hmem.1, hmem.2⟩]
    · rw [if_neg hmem]
      have hrhs : (i ∈ j :: js ∧ sol.assign i t = true) ↔
          (i = j ∧ sol.assign i t = true) := by
        constructor
        · rintro ⟨hin, hat⟩
          rcases List.mem_cons.mp hin with h1 | h1
          · exact ⟨h1, hat⟩
          · exact absurd ⟨h1, hat⟩ hmem
        · rintro ⟨h1, hat⟩
          exact ⟨h1 ▸ List.mem_cons_self i js, hat⟩
      by_cases hij : i = j ∧ sol.assign i t = true
      · rw [if_pos (hrhs.mpr hij)]
        rcases hij with ⟨h1, hat⟩
        rw [← h1, if_pos hat, hset_eq]
      · rw [if_neg (fun hc => hij (hrhs.mp hc))]
        cases ha : sol.assign j t
        · rw [if_neg (by simp [ha])]
        · rw [if_pos rfl]
          have hji : j ≠ i := by
            intro he
            rw [he] at ha
            exact hij ⟨he.symm, ha⟩
          exact hset_ne j hji

/-- The inner decoding fold preserves the length of `final_teams`. -/
theorem foldl_set_length (sol : Solution) (t : ℕ) (js : List ℕ) :
    ∀ acc : List ℤ,
      (js.foldl (fun a j => if sol.assign j t then a.set j (t : ℤ) else a) acc).length =
        acc.length := by
  induction js with
  | nil => intro acc; rfl
  | cons j js ih =>
    intro acc
    simp only [List.foldl_cons]
    rw [ih]
    cases sol.assign j t <;> simp

/-- Entry `i` of `decodeInner` holds `t` when student `i` is a member of
team `t`, and is untouched otherwise. -/
theorem decodeInner_getD (roster : List Student) (sol : Solution) (t i : ℕ)
    (d : ℤ) (acc : List ℤ) (hi : i < acc.length) :
    (decodeInner roster sol t acc).getD i d =
      if i < numStudents roster ∧ sol.assign i t = true then (t : ℤ)
      else acc.getD i d := by
  unfold decodeInner
  rw [foldl_set_getD sol t i d _ acc hi]
  simp [List.mem_range]

/-- `decodeInner` preserves length. -/
theorem decodeInner_length (roster : List Student) (sol : Solution) (t : ℕ)
    (acc : List ℤ) : (decodeInner roster sol t acc).length = acc.length :=
  foldl_set_length sol t _ acc

/-- Specification helper for the decoding loop: the largest slot index
below `m` whose assignment variable for student `i` is true, if any. -/
def lastAssigned (sol : Solution) (i : ℕ) : ℕ → Option ℕ
  | 0 => none
  | m + 1 => if sol.assign i m then some m else lastAssigned sol i m

/-- The outer decoding fold preserves length. -/
theorem foldl_decode_length (roster : List Student) (sol : Solution)
    (ts : List ℕ) :
    ∀ acc : List ℤ,
      ((ts.foldl (fun acc t => decodeInner roster sol t acc) acc).length) =
        acc.length := by
  induction ts with
  | nil => intro acc; rfl
  | cons t ts ih =>
    intro acc
    simp only [List.foldl_cons]
    rw [ih, decodeInner_length]

/-- Entry `i` after decoding the first `m` teams is the last slot below `m`
containing student `i`, or the initial entry when there is none. -/
theorem foldl_decode_getD (roster : List Student) (sol : Solution) (i : ℕ)
    (d : ℤ) (m : ℕ) :
    ∀ acc : List ℤ, i < acc.length → i < numStudents roster →
      (((List.range m).foldl (fun acc t => decodeInner roster sol t acc) acc).getD i d) =
        (match lastAssigned sol i m with
         | some t => (t : ℤ)
         | none => acc.getD i d) := by
  induction m with
  | zero => intro acc _ _; simp [lastAssigned]
  | succ m ih =>
    intro acc hacc hi
    rw [List.range_succ, List.foldl_append]
    simp only [List.foldl_cons, List.foldl_nil]
    have hlen : i < ((List.range m).foldl (fun acc t => decodeInner roster sol t acc) acc).length := by
      rw [foldl_decode_length]; exact hacc
    rw [decodeInner_getD roster sol m i d _ hlen, ih acc hacc hi]
    cases ha : sol.assign i m
    · simp [lastAssigned, ha, hi]
    · simp [lastAssigned, ha, hi]

/-- The decoded label of an in-range student is the last true slot, or `-1`
when every assignment variable of the student is false. -/
theorem decodedTeam_eq_lastAssigned (roster : List Student) (cfg : Config)
    (sol : Solution) (i : ℕ) (hi : i < numStudents roster) :
    decodedTeam roster cfg sol i =
      (match lastAssigned sol i (maxTeams roster cfg) with
       | some t => (t : ℤ)
       | none => -1) := by
  unfold decodedTeam finalTeams
  rw [foldl_decode_getD roster sol i (-1) (maxTeams roster cfg)
    (List.replicate (numStudents roster) (-1)) (by simpa using hi) hi]
  cases lastAssigned sol i (maxTeams roster cfg) with
  | none =>
    simp only []
    rw [List.getD_eq_getElem?_getD, List.getElem?_replicate]
    simp [hi]
  | some t => simp

/-- With no true slot below `m`, `lastAssigned` is `none`. -/
theorem lastAssigned_eq_none (sol : Solution) (i : ℕ) (m : ℕ)
    (h : ∀ t, t < m → sol.assign i t = false) :
    lastAssigned sol i m = none := by
  induction m with
  | zero => rfl
  | succ m ih =>
    unfold lastAssigned
    rw [h m (Nat.lt_succ_self m)]
    exact ih fun t ht => h t (Nat.lt_succ_of_lt ht)

/-- When `t` is a true slot below `m` and every true slot above it is out
of range, `lastAssigned` returns `t`. -/
theorem lastAssigned_eq_some_of_greatest (sol : Solution) (i : ℕ) (m t : ℕ)
    (htm : t < m) (hat : sol.assign i t = true)
    (habove : ∀ u, t < u → u < m → sol.assign i u = false) :
    lastAssigned sol i m = some t := by
  induction m with
  | zero => omega
  | succ m ih =>
    unfold lastAssigned
    by_cases heq : t = m
    · subst heq
      rw [hat]
      simp
    · have htm' : t < m := by omega
      rw [habove m (by omega) (Nat.lt_succ_self m)]
      simp only [Bool.false_eq_true, if_false]
      exact ih htm' fun u hu hum => habove u hu (Nat.lt_succ_of_lt hum)

/-- When `t` is the unique true slot below `m`, `lastAssigned` returns
`t`. -/
theorem lastAssigned_eq_some_of_unique (sol : Solution) (i : ℕ) (m t : ℕ)
    (htm : t < m) (hat : sol.assign i t = true)
    (huniq : ∀ u, u < m → sol.assign i u = true → u = t) :
    lastAssigned sol i m = some t := by
  apply lastAssigned_eq_some_of_greatest sol i m t htm hat
  intro u hu hum
  cases ha : sol.assign i u
  · rfl
  · exact absurd (huniq u hum ha) (by omega)

/-- Under totality the decoded label of student `i` is exactly its unique
slot. -/
theorem decodedTeam_spec (roster : List Student) (cfg : Config)
    (sol : Solution) (h : totalityOK roster cfg sol) (i : ℕ)
    (hi : i < numStudents roster) :
    ∃ t, t < maxTeams roster cfg ∧ sol.assign i t = true ∧
      decodedTeam roster cfg sol i = (t : ℤ) ∧
      ∀ u, u < maxTeams roster cfg → sol.assign i u = true → u = t := by
  rcases totality_unique roster cfg sol h i hi with ⟨t, htm, hat, huniq⟩
  refine ⟨t, htm, hat, ?_, huniq⟩
  rw [decodedTeam_eq_lastAssigned roster cfg sol i hi,
    lastAssigned_eq_some_of_unique sol i _ t htm hat huniq]

/-- Under totality, student `i` decodes to slot `t` exactly when its
assignment variable for `t` is true. -/
theorem decodedTeam_eq_iff (roster : List Student) (cfg : Config)
    (sol : Solution) (h : totalityOK roster cfg sol) (i : ℕ)
    (hi : i < numStudents roster) (t : ℕ) (htm : t < maxTeams roster cfg) :
    decodedTeam roster cfg sol i = (t : ℤ) ↔ sol.assign i t = true := by
  rcases decodedTeam_spec roster cfg sol h i hi with ⟨u, hum, hau, hdec, huniq⟩
  constructor
  · intro hd
    rw [hdec] at hd
    have : t = u := by exact_mod_cast hd.symm
    rwa [this]
  · intro ha
    rw [hdec, huniq t htm ha]

/-- Under totality the decoded member count of slot `t` is the model's team
size expression. -/
theorem decodedTeamCount_eq (roster : List Student) (cfg : Config)
    (sol : Solution) (h : totalityOK roster cfg sol) (t : ℕ)
    (htm : t < maxTeams roster cfg) :
    (decodedTeamCount roster cfg sol (t : ℤ) : ℤ) = teamSizeExpr roster sol t := by
  unfold decodedTeamCount teamSizeExpr
  rw [sum_boolToInt_countP]
  norm_cast
  apply List.countP_congr
  intro i him
  have hi := List.mem_range.mp him
  simp only [beq_iff_eq]
  constructor
  · intro hd
    exact (decodedTeam_eq_iff roster cfg sol h i hi t htm).mp (by exact_mod_cast hd)
  · intro ha
    exact_mod_cast (decodedTeam_eq_iff roster cfg sol h i hi t htm).mpr ha

/-- The gender-filtered assignment sum counts the team's members carrying
the label. -/
theorem genderAssignSum_eq_countP (roster : List Student) (sol : Solution)
    (g : String) (t : ℕ) :
    genderAssignSum roster sol g t =
      (((List.range (numStudents roster)).countP fun i =>
        (gender roster i == g) && sol.assign i t) : ℤ) := by
  unfold genderAssignSum genderIndices
  rw [sum_boolToInt_countP, List.countP_filter]
  norm_cast
  apply List.countP_congr
  intro i _
  simp [Bool.and_comm]

/-- Under totality the decoded per-gender member count of slot `t` equals
the model's gender-filtered sum. -/
theorem decodedGenderCount_eq (roster : List Student) (cfg : Config)
    (sol : Solution) (h : totalityOK roster cfg sol) (g : String) (t : ℕ)
    (htm : t < maxTeams roster cfg) :
    (decodedGenderCount roster cfg sol g (t : ℤ) : ℤ) =
      genderAssignSum roster sol g t := by
  rw [genderAssignSum_eq_countP]
  unfold decodedGenderCount
  norm_cast
  apply List.countP_congr
  intro i him
  have hi := List.mem_range.mp him
  simp only [Bool.and_eq_true, beq_iff_eq]
  constructor
  · intro ⟨hd, hg⟩
    exact ⟨hg, (decodedTeam_eq_iff roster cfg sol h i hi t htm).mp (by exact_mod_cast hd)⟩
  · intro ⟨hg, ha⟩
    exact ⟨by exact_mod_cast (decodedTeam_eq_iff roster cfg sol h i hi t htm).mpr ha, hg⟩

/-- A slot containing some in-range student has team size at least one. -/
theorem teamSizeExpr_pos (roster : List Student) (sol : Solution) (t i : ℕ)
    (hi : i < numStudents roster) (ha : sol.assign i t = true) :
    1 ≤ teamSizeExpr roster sol t := by
  unfold teamSizeExpr
  rw [sum_boolToInt_countP]
  have : 0 < (List.range (numStudents roster)).countP fun j => sol.assign j t :=
    List.countP_pos_iff.mpr ⟨i, List.mem_range.mpr hi, ha⟩
  exact_mod_cast this

/-- With nonnegative WAMs, a member's WAM bounds the team WAM sum from
below. -/
theorem wamSumExpr_ge (roster : List Student) (sol : Solution) (t i : ℕ)
    (hi : i < numStudents roster) (ha : sol.assign i t = true)
    (hnn : ∀ j ∈ List.range (numStudents roster), 0 ≤ wam roster j) :
    wam roster i ≤ wamSumExpr roster sol t := by
  unfold wamSumExpr
  have hval : wam roster i = wam roster i * boolToInt (sol.assign i t) := by
    simp [ha, boolToInt]
  rw [hval]
  apply List.single_le_sum
  · intro x hx
    rcases List.mem_map.mp hx with ⟨j, hj, rfl⟩
    have hj0 := hnn j hj
    cases hb : sol.assign j t <;> simp [boolToInt, hb, hj0]
  · exact List.mem_map.mpr ⟨i, List.mem_range.mpr hi, rfl⟩

/-- Size-bound misconfigurations make the model unsatisfiable: no
valuation meets every posted constraint. -/
theorem misconfig_unsat (roster : List Student) (cfg : Config)
    (hn : 0 < numStudents roster)
    (hcfg : cfg.maxTeamSize < cfg.minTeamSize ∨
      numStudents roster < cfg.minTeamSize) :
    ∀ sol, ¬ modelConstraints roster cfg sol := by
  intro sol hC
  obtain ⟨htot, hcap, hact, -, -, -, -⟩ := hC
  by_cases hm : maxTeams roster cfg = 0
  · have h1 := htot 0 (List.mem_range.mpr hn)
    unfold assignCountOfStudent at h1
    rw [hm] at h1
    simp at h1
  · rcases totality_unique roster cfg sol htot 0 hn with ⟨t, htm, hat, -⟩
    rcases hcfg with hlt | hlt
    · have hpos := teamSizeExpr_pos roster sol t 0 hn hat
      have hused : sol.teamUsed t = true := by
        cases hb : sol.teamUsed t
        · have hz := (hact t (List.mem_range.mpr htm)).2 hb
          omega
        · rfl
      have hge := (hact t (List.mem_range.mpr htm)).1 hused
      have hle := hcap t (List.mem_range.mpr htm)
      have : (cfg.minTeamSize : ℤ) ≤ (cfg.maxTeamSize : ℤ) := le_trans hge hle
      have hcast : (cfg.maxTeamSize : ℤ) < (cfg.minTeamSize : ℤ) := by
        exact_mod_cast hlt
      omega
    · exact hm (Nat.div_eq_of_lt hlt)

/-- A roster WAM beyond the precomputed `wam_sum` domain makes the model
unsatisfiable: the channeling equality of line 98 and the variable bound of
line 94 cannot both hold. -/
theorem bigwam_unsat (roster : List Student) (cfg : Config)
    (hnn : ∀ j ∈ List.range (numStudents roster), 0 ≤ wam roster j)
    (hbig : ∃ i ∈ List.range (numStudents roster),
      wamSumUpperBound cfg < wam roster i) :
    ∀ sol, ¬ modelConstraints roster cfg sol := by
  intro sol hC
  obtain ⟨htot, -, -, -, -, -, haux⟩ := hC
  rcases hbig with ⟨i, him, hbig⟩
  have hi := List.mem_range.mp him
  by_cases hm : maxTeams roster cfg = 0
  · have h1 := htot i him
    unfold assignCountOfStudent at h1
    rw [hm] at h1
    simp at h1
  · rcases totality_unique roster cfg sol htot i hi with ⟨t, htm, hat, -⟩
    have h1 := wamSumExpr_ge roster sol t i hi hat hnn
    obtain ⟨⟨-, hub⟩, -, -, hwseq, -, -, -, -⟩ := haux t (List.mem_range.mpr htm)
    rw [hwseq] at hub
    linarith

/-- When the model is unsatisfiable, every contract-respecting solver
response routes the pipeline to the explicit no-feasible result, and the
output file is not written. -/
theorem unsat_outcome (roster : List Student) (cfg : Config)
    (hunsat : ∀ sol, ¬ modelConstraints roster cfg sol) (r : SolverResponse)
    (hr : solverContract roster cfg r) :
    allocateOutcome roster cfg r = AllocOutcome.noFeasible ∧
      writesOutput r = false := by
  have hf : r.feasible = false := by
    cases hb : r.feasible
    · rfl
    · exact absurd (hr hb) (hunsat r.sol)
  unfold allocateOutcome writesOutput
  rw [hf]
  simp

/-- The translated pipeline only ever returns a decoded assignment or the
no-feasible result. -/
theorem allocateOutcome_cases (roster : List Student) (cfg : Config)
    (r : SolverResponse) :
    allocateOutcome roster cfg r = AllocOutcome.assigned (finalTeams roster cfg r.sol) ∨
      allocateOutcome roster cfg r = AllocOutcome.noFeasible := by
  unfold allocateOutcome
  cases r.feasible <;> simp

/-- C1: in the constructed model every student's assignment variables sum
to 1 over all slots; consequently, on every successful solve (a contract-
respecting response with a feasible status), the pipeline decodes each
student to exactly one team label: some slot `t` holds the student, the
decoded label equals `t` (in particular it is not the unassigned marker
`-1`), and every other true slot coincides with `t`. -/
theorem claim1_totality (roster : List Student) (cfg : Config)
    (r : SolverResponse) (hc : solverContract roster cfg r)
    (hf : r.feasible = true) :
    allocateOutcome roster cfg r =
      AllocOutcome.assigned (finalTeams roster cfg r.sol) ∧
    ∀ i ∈ List.range (numStudents roster),
      assignCountOfStudent roster cfg r.sol i = 1 ∧
      ∃ t, t < maxTeams roster cfg ∧ r.sol.assign i t = true ∧
        decodedTeam roster cfg r.sol i = (t : ℤ) ∧
        decodedTeam roster cfg r.sol i ≠ -1 ∧
        ∀ u, u < maxTeams roster cfg → r.sol.assign i u = true → u = t := by
  have hC := hc hf
  obtain ⟨htot, -⟩ := hC
  constructor
  · unfold allocateOutcome
    rw [hf]
    simp
  · intro i him
    have hi := List.mem_range.mp him
    refine ⟨htot i him, ?_⟩
    rcases decodedTeam_spec roster cfg r.sol htot i hi with ⟨t, htm, hat, hdec, huniq⟩
    refine ⟨t, htm, hat, hdec, ?_, huniq⟩
    rw [hdec]
    have h0 : (0 : ℤ) ≤ (t : ℤ) := Int.ofNat_nonneg t
    omega

/-- Witness for C1: the four-student fixture with its satisfying valuation
has a respected contract, and student 0's assignment variables sum to 1. -/
theorem claim1_totality_witness :
    solverContract rosterA cfgA respA ∧
      assignCountOfStudent rosterA cfgA solA 0 = 1 := by
  refine ⟨by decide, ?_⟩
  exact ((claim1_totality rosterA cfgA respA (by decide) rfl).2 0 (by decide)).1

/-- C2: every slot's member count is at most `max_team_size`; a used slot
has at least `min_team_size` members and an unused slot exactly 0 (the
two-way reified linkage of lines 67-68); consequently every team label
appearing in the decoded output has between `min_team_size` and
`max_team_size` decoded members. -/
theorem claim2_teamSizes (roster : List Student) (cfg : Config)
    (sol : Solution) (h : modelConstraints roster cfg sol) :
    (∀ t ∈ List.range (maxTeams roster cfg),
      teamSizeExpr roster sol t ≤ (cfg.maxTeamSize : ℤ) ∧
      (sol.teamUsed t = true → (cfg.minTeamSize : ℤ) ≤ teamSizeExpr roster sol t) ∧
      (sol.teamUsed t = false → teamSizeExpr roster sol t = 0)) ∧
    ∀ l : ℤ,
      (∃ i ∈ List.range (numStudents roster), decodedTeam roster cfg sol i = l) →
      cfg.minTeamSize ≤ decodedTeamCount roster cfg sol l ∧
      decodedTeamCount roster cfg sol l ≤ cfg.maxTeamSize := by
  obtain ⟨htot, hcap, hact, -, -, -, -⟩ := h
  constructor
  · intro t htm
    exact ⟨hcap t htm, (hact t htm).1, (hact t htm).2⟩
  · rintro l ⟨i, him, hdi⟩
    have hi := List.mem_range.mp him
    rcases decodedTeam_spec roster cfg sol htot i hi with ⟨t, htm, hat, hdec, -⟩
    have hl : l = (t : ℤ) := by rw [← hdi, hdec]
    subst hl
    have hcount := decodedTeamCount_eq roster cfg sol htot t htm
    have hpos := teamSizeExpr_pos roster sol t i hi hat
    have hused : sol.teamUsed t = true := by
      cases hb : sol.teamUsed t
      · have hz := (hact t (List.mem_range.mpr htm)).2 hb
        omega
      · rfl
    have hge := (hact t (List.mem_range.mpr htm)).1 hused
    have hle := hcap t (List.mem_range.mpr htm)
    constructor
    · have hx : (cfg.minTeamSize : ℤ) ≤ (decodedTeamCount roster cfg sol (t : ℤ) : ℤ) := by
        rw [hcount]
        exact hge
      exact_mod_cast hx
    · have hx : ((decodedTeamCount roster cfg sol (t : ℤ)) : ℤ) ≤ (cfg.maxTeamSize : ℤ) := by
        rw [hcount]
        exact hle
      exact_mod_cast hx

/-- Witness for C2: on the fixture, team label 0 appears in the output and
its decoded member count meets the lower bound. -/
theorem claim2_teamSizes_witness :
    modelConstraints rosterA cfgA solA ∧
      cfgA.minTeamSize ≤ decodedTeamCount rosterA cfgA solA 0 := by
  refine ⟨by decide, ?_⟩
  exact ((claim2_teamSizes rosterA cfgA solA (by decide)).2 0
    ⟨0, by decide, by decide⟩).1

/-- Every in-range student's lab code is one of the distinct lab codes the
model enumerates. -/
theorem studentLab_mem_labIds (roster : List Student) (i : ℕ)
    (hi : i < numStudents roster) : studentLab roster i ∈ labIds roster := by
  unfold labIds
  rw [(List.perm_insertionSort _ _).mem_iff, List.mem_dedup]
  apply List.mem_map.mpr
  refine ⟨studentAt roster i, ?_, rfl⟩
  unfold studentAt
  rw [List.getD_eq_getElem roster _ hi]
  exact List.getElem_mem hi

/-- C3: every slot carries exactly one lab label, membership forces the
slot's label to be the member's own lab code, and consequently any two
students decoded to the same team label share the same lab code. -/
theorem claim3_labHomogeneity (roster : List Student) (cfg : Config)
    (sol : Solution) (h : modelConstraints roster cfg sol) :
    (∀ t ∈ List.range (maxTeams roster cfg),
      (labIds roster).countP (fun l => sol.labTeam t l) = 1) ∧
    (∀ i ∈ List.range (numStudents roster),
      ∀ t ∈ List.range (maxTeams roster cfg),
      sol.assign i t = true → sol.labTeam t (studentLab roster i) = true) ∧
    ∀ i ∈ List.range (numStudents roster),
      ∀ j ∈ List.range (numStudents roster),
      decodedTeam roster cfg sol i = decodedTeam roster cfg sol j →
      studentLab roster i = studentLab roster j := by
  obtain ⟨htot, -, -, hlab1, hlink, -, -⟩ := h
  refine ⟨hlab1, hlink, ?_⟩
  intro i him j hjm hdij
  have hi := List.mem_range.mp him
  have hj := List.mem_range.mp hjm
  rcases decodedTeam_spec roster cfg sol htot i hi with ⟨t, htm, hat, hdec, -⟩
  rcases decodedTeam_spec roster cfg sol htot j hj with ⟨u, hum, hau, hdecj, -⟩
  have htu : t = u := by
    rw [hdec, hdecj] at hdij
    exact_mod_cast hdij
  subst htu
  have h1 := hlink i him t (List.mem_range.mpr htm) hat
  have h2 := hlink j hjm t (List.mem_range.mpr htm) hau
  rcases countP_eq_one_elim _ _ (hlab1 t (List.mem_range.mpr htm)) with
    ⟨lab0, -, -, huniq⟩
  rw [huniq _ (studentLab_mem_labIds roster i hi) h1,
    huniq _ (studentLab_mem_labIds roster j hj) h2]

/-- Witness for C3: on the fixture, students 0 and 1 decode to the same
team and indeed share a lab code. -/
theorem claim3_labHomogeneity_witness :
    modelConstraints rosterA cfgA solA ∧
      studentLab rosterA 0 = studentLab rosterA 1 := by
  refine ⟨by decide, ?_⟩
  exact (claim3_labHomogeneity rosterA cfgA solA (by decide)).2.2 0 (by decide)
    1 (by decide) (by decide)

/-- C4 counterexample: the constraint of lines 79-89 is posted only for
the literal labels M and F. On `rosterO` the gender label O occurs in the
roster, the valuation `solO` satisfies every model constraint, yet the
single output team holds exactly one O-labelled member — refuting the
claim that no present gender label is ever isolated. -/
theorem claim4_counterexample :
    modelConstraints rosterO cfgO solO ∧
    gender rosterO 3 = "O" ∧
    decodedTeam rosterO cfgO solO 3 = 0 ∧
    decodedGenderCount rosterO cfgO solO ("O") 0 = 1 := by decide

/-- C4 amended: for the two hard-coded labels M and F only — if the label
occurs anywhere in the roster, no team label appearing in the decoded
output has exactly one member carrying it. -/
theorem claim4_amended (roster : List Student) (cfg : Config) (sol : Solution)
    (h : modelConstraints roster cfg sol) (g : String)
    (hg : g = "M" ∨ g = "F")
    (hpresent : ∃ i ∈ List.range (numStudents roster), gender roster i = g)
    (l : ℤ)
    (happears : ∃ i ∈ List.range (numStudents roster),
      decodedTeam roster cfg sol i = l) :
    decodedGenderCount roster cfg sol g l ≠ 1 := by
  obtain ⟨htot, -, -, -, -, hgen, -⟩ := h
  rcases happears with ⟨i, him, hdi⟩
  have hi := List.mem_range.mp him
  rcases decodedTeam_spec roster cfg sol htot i hi with ⟨t, htm, hat, hdec, -⟩
  have hl : l = (t : ℤ) := by rw [← hdi, hdec]
  subst hl
  have hcnt := decodedGenderCount_eq roster cfg sol htot g t htm
  rcases hpresent with ⟨i0, hi0m, hg0⟩
  have hne : genderIndices roster g ≠ [] := by
    have hmem : i0 ∈ genderIndices roster g := by
      unfold genderIndices
      rw [List.mem_filter]
      exact ⟨hi0m, by simp [hg0]⟩
    intro hempty
    rw [hempty] at hmem
    exact absurd hmem (List.not_mem_nil i0)
  have hsum : genderAssignSum roster sol g t ≠ 1 := by
    rcases hg with hgm | hgf
    · subst hgm
      exact (hgen t (List.mem_range.mpr htm)).1 hne
    · subst hgf
      exact (hgen t (List.mem_range.mpr htm)).2 hne
  intro hone
  apply hsum
  rw [← hcnt, hone]
  norm_num

/-- Witness for C4 amended: on the fixture, label M is present and team 0
appears, and its M-count is not 1. -/
theorem claim4_amended_witness :
    modelConstraints rosterA cfgA solA ∧
      decodedGenderCount rosterA cfgA solA ("M") 0 ≠ 1 := by
  refine ⟨by decide, ?_⟩
  exact claim4_amended rosterA cfgA solA (by decide) ("M") (Or.inl rfl)
    ⟨0, by decide, by decide⟩ 0 ⟨0, by decide, by decide⟩

/-- C5 counterexample: at `wam_weight = 0.0999` the code's coefficient
`int(wam_weight * 1000)` truncates 99.9 to 99 while the claimed
`round(wam_weight * 1000)` gives 100, so on a satisfying valuation with a
unit squared deviation the minimized objective (100) differs from the
claimed composition (101). -/
theorem claim5_counterexample :
    modelConstraints rosterB cfgB solB ∧
    objectiveExpr rosterB cfgB solB = 100 ∧
    objectiveClaimed rosterB cfgB solB = 101 ∧
    objectiveExpr rosterB cfgB solB ≠ objectiveClaimed rosterB cfgB solB := by
  have h1 : objectiveExpr rosterB cfgB solB = 100 := by
    simp [objectiveExpr, truncToInt, rosterB, cfgB, solB, maxTeams, numStudents,
      List.range_succ, boolToInt]
    norm_num
  have h2 : objectiveClaimed rosterB cfgB solB = 101 := by
    simp [objectiveClaimed, rosterB, cfgB, solB, maxTeams, numStudents,
      List.range_succ, boolToInt, round_eq]
    norm_num
  refine ⟨by decide, h1, h2, ?_⟩
  rw [h1, h2]
  decide

/-- C5 amended: for every satisfying valuation and `wam_weight ≥ 0`, the
minimized objective equals the used-slot count plus
`floor(wam_weight * 1000)` — Python `int()` truncation, which on
nonnegative weights is the floor, not rounding — times the sum of squared
deviations `(wam_sum(t) − size(t)·global_average_wam)²`; all coefficients
are integers. -/
theorem claim5_amended (roster : List Student) (cfg : Config) (sol : Solution)
    (h : modelConstraints roster cfg sol) (hw : 0 ≤ cfg.wamWeight) :
    objectiveExpr roster cfg sol =
      ((List.range (maxTeams roster cfg)).map fun t => boolToInt (sol.teamUsed t)).sum +
        ⌊cfg.wamWeight * 1000⌋ *
          ((List.range (maxTeams roster cfg)).map fun t =>
            (wamSumExpr roster sol t -
              teamSizeExpr roster sol t * globalAvgWam roster) ^ 2).sum := by
  obtain ⟨-, -, -, -, -, -, haux⟩ := h
  unfold objectiveExpr
  have hcoef : truncToInt (cfg.wamWeight * 1000) = ⌊cfg.wamWeight * 1000⌋ := by
    unfold truncToInt
    rw [if_pos (by positivity)]
  rw [hcoef]
  congr 2
  congr 1
  apply List.map_congr_left
  intro t htm
  obtain ⟨-, -, hsveq, hwseq, -, hdeq, -, hsqeq⟩ := haux t htm
  rw [hsqeq, hdeq, hwseq, hsveq]
  ring

/-- Witness for C5 amended at the two-student fixture. -/
theorem claim5_amended_witness :
    (0 ≤ cfgB.wamWeight) ∧
    objectiveExpr rosterB cfgB solB =
      ((List.range (maxTeams rosterB cfgB)).map fun t => boolToInt (solB.teamUsed t)).sum +
        ⌊cfgB.wamWeight * 1000⌋ *
          ((List.range (maxTeams rosterB cfgB)).map fun t =>
            (wamSumExpr rosterB solB t -
              teamSizeExpr rosterB solB t * globalAvgWam rosterB) ^ 2).sum := by
  have hw : (0 : ℚ) ≤ cfgB.wamWeight := by
    simp [cfgB]
    norm_num
  exact ⟨hw, claim5_amended rosterB cfgB solB (by decide) hw⟩

/-- C6 counterexample: with `min_team_size = 3 > max_team_size = 2` on a
three-student roster, no validation or configuration error is ever raised:
the model is built and is unsatisfiable, every contract-respecting solver
response routes the pipeline to the no-feasible result with no output
written, and the outcome is never a validation error. -/
theorem claim6_counterexample :
    (∀ sol, ¬ modelConstraints rosterC cfgC sol) ∧
    (∀ r, solverContract rosterC cfgC r →
      allocateOutcome rosterC cfgC r = AllocOutcome.noFeasible ∧
      writesOutput r = false) ∧
    ∀ r msg, allocateOutcome rosterC cfgC r ≠ AllocOutcome.validationError msg := by
  have hunsat := misconfig_unsat rosterC cfgC (by decide) (Or.inl (by decide))
  refine ⟨hunsat, fun r hr => unsat_outcome rosterC cfgC hunsat r hr, ?_⟩
  intro r msg
  rcases allocateOutcome_cases rosterC cfgC r with hcase | hcase <;>
    rw [hcase] <;> simp

/-- C6 amended: the code performs no pre-construction validation; a
size-bound misconfiguration (`min_team_size > max_team_size` or
`num_students < min_team_size`) instead yields an unsatisfiable model, so
the pipeline returns the explicit no-feasible result (`None`) and writes
no output. -/
theorem claim6_amended (roster : List Student) (cfg : Config)
    (hn : 0 < numStudents roster)
    (hcfg : cfg.maxTeamSize < cfg.minTeamSize ∨
      numStudents roster < cfg.minTeamSize)
    (r : SolverResponse) (hr : solverContract roster cfg r) :
    (∀ sol, ¬ modelConstraints roster cfg sol) ∧
    allocateOutcome roster cfg r = AllocOutcome.noFeasible ∧
    writesOutput r = false := by
  have hunsat := misconfig_unsat roster cfg hn hcfg
  exact ⟨hunsat, (unsat_outcome roster cfg hunsat r hr).1,
    (unsat_outcome roster cfg hunsat r hr).2⟩

/-- Witness for C6 amended at the misconfigured three-student fixture. -/
theorem claim6_amended_witness :
    (0 < numStudents rosterC) ∧
    allocateOutcome rosterC cfgC ⟨false, trivialSolution⟩ =
      AllocOutcome.noFeasible := by
  refine ⟨by decide, ?_⟩
  exact (claim6_amended rosterC cfgC (by decide) (Or.inl (by decide))
    ⟨false, trivialSolution⟩ (by decide)).2.1

/-- C7 counterexample: the decoder performs no integrity check. On a
degenerate valuation where student 0 has zero true assignment variables
and student 1 has two, the pipeline still returns a decoded output: entry
0 keeps the initial marker `-1` and entry 1 holds the larger true slot —
no internal-integrity error occurs. -/
theorem claim7_counterexample :
    assignCountOfStudent rosterD cfgD solD 0 = 0 ∧
    assignCountOfStudent rosterD cfgD solD 1 = 2 ∧
    allocateOutcome rosterD cfgD respD = AllocOutcome.assigned [-1, 1] ∧
    decodedTeam rosterD cfgD solD 0 = -1 := by decide

/-- C7 amended: the decoder silently maps a student with no true
assignment variable to the marker `-1`, and a student with several true
variables to the largest true slot index (the last write of the decoding
loop wins); it never fails. -/
theorem claim7_amended (roster : List Student) (cfg : Config) (sol : Solution)
    (i : ℕ) (hi : i < numStudents roster) :
    ((∀ t, t < maxTeams roster cfg → sol.assign i t = false) →
      decodedTeam roster cfg sol i = -1) ∧
    (∀ t, t < maxTeams roster cfg → sol.assign i t = true →
      (∀ u, t < u → u < maxTeams roster cfg → sol.assign i u = false) →
      decodedTeam roster cfg sol i = (t : ℤ)) := by
  constructor
  · intro hall
    rw [decodedTeam_eq_lastAssigned roster cfg sol i hi,
      lastAssigned_eq_none sol i _ hall]
  · intro t htm hat habove
    rw [decodedTeam_eq_lastAssigned roster cfg sol i hi,
      lastAssigned_eq_some_of_greatest sol i _ t htm hat habove]

/-- Witness for C7 amended: student 0 of the degenerate fixture decodes to
`-1`. -/
theorem claim7_amended_witness :
    (0 < numStudents rosterD) ∧ decodedTeam rosterD cfgD solD 0 = -1 := by
  refine ⟨by decide, ?_⟩
  exact (claim7_amended rosterD cfgD solD 0 (by decide)).1 (by decide)

/-- C8: whenever the status is not OPTIMAL/FEASIBLE the pipeline returns
the explicit no-feasible result and writes no output; the output file is
written only on a successful status; and in particular
`min_team_size > num_students` forces exactly that failure for every
contract-respecting response. -/
theorem claim8_failureAtomicity (roster : List Student) (cfg : Config)
    (r : SolverResponse) (hr : solverContract roster cfg r) :
    (r.feasible = false →
      allocateOutcome roster cfg r = AllocOutcome.noFeasible ∧
      writesOutput r = false) ∧
    (writesOutput r = true → r.feasible = true) ∧
    (0 < numStudents roster → numStudents roster < cfg.minTeamSize →
      allocateOutcome roster cfg r = AllocOutcome.noFeasible ∧
      writesOutput r = false) := by
  refine ⟨?_, fun hx => hx, ?_⟩
  · intro hf
    unfold allocateOutcome writesOutput
    rw [hf]
    simp
  · intro hn hlt
    exact unsat_outcome roster cfg (misconfig_unsat roster cfg hn (Or.inr hlt))
      r hr

/-- Witness for C8: a two-student roster with `min_team_size = 5` and a
non-successful response yields the no-feasible outcome and no write. -/
theorem claim8_failureAtomicity_witness :
    solverContract rosterD cfgE respE ∧
    allocateOutcome rosterD cfgE respE = AllocOutcome.noFeasible ∧
    writesOutput respE = false := by
  refine ⟨by decide, ?_⟩
  exact (claim8_failureAtomicity rosterD cfgE respE (by decide)).2.2
    (by decide) (by decide)

/-- C9 counterexample: with WAMs of 10000 the valuation `solW` meets every
structural constraint, yet the team's WAM sum 20000 exceeds the
precomputed bound `100 * max_team_size = 200`; no range-validation error
is raised — the full model is silently unsatisfiable and every
contract-respecting response yields the no-feasible outcome, never a
range error. -/
theorem claim9_counterexample :
    structuralConstraints rosterW cfgW solW ∧
    wamSumExpr rosterW solW 0 = 20000 ∧
    wamSumUpperBound cfgW = 200 ∧
    (∀ sol, ¬ modelConstraints rosterW cfgW sol) ∧
    ∀ r, solverContract rosterW cfgW r →
      allocateOutcome rosterW cfgW r = AllocOutcome.noFeasible ∧
      ∀ msg, allocateOutcome rosterW cfgW r ≠ AllocOutcome.rangeError msg := by
  have hunsat := bigwam_unsat rosterW cfgW (by decide) ⟨0, by decide, by decide⟩
  refine ⟨by decide, by decide, by decide, hunsat, ?_⟩
  intro r hr
  refine ⟨(unsat_outcome rosterW cfgW hunsat r hr).1, ?_⟩
  intro msg
  rcases allocateOutcome_cases rosterW cfgW r with hcase | hcase <;>
    rw [hcase] <;> simp

/-- C9 amended: only `wam_sum`'s bound is sized from `max_team_size`
(assuming WAMs at most 100); the `diff` and `squared_diff` bounds are the
hardcoded constants 500 and 250000; and no range validation exists — a
roster whose WAM domain exceeds the precomputed `wam_sum` bound makes the
model silently unsatisfiable, producing the no-feasible result rather
than a range-validation error. -/
theorem claim9_amended (roster : List Student) (cfg : Config)
    (hnn : ∀ j ∈ List.range (numStudents roster), 0 ≤ wam roster j)
    (hbig : ∃ i ∈ List.range (numStudents roster),
      wamSumUpperBound cfg < wam roster i)
    (r : SolverResponse) (hr : solverContract roster cfg r) :
    diffBound = 500 ∧ squaredDiffUpperBound = 250000 ∧
    (∀ sol, ¬ modelConstraints roster cfg sol) ∧
    allocateOutcome roster cfg r = AllocOutcome.noFeasible ∧
    writesOutput r = false := by
  have hunsat := bigwam_unsat roster cfg hnn hbig
  exact ⟨rfl, rfl, hunsat, (unsat_outcome roster cfg hunsat r hr).1,
    (unsat_outcome roster cfg hunsat r hr).2⟩

/-- Witness for C9 amended at the high-WAM fixture. -/
theorem claim9_amended_witness :
    (wamSumUpperBound cfgW < wam rosterW 0) ∧
    allocateOutcome rosterW cfgW ⟨false, trivialSolution⟩ =
      AllocOutcome.noFeasible := by
  refine ⟨by decide, ?_⟩
  exact (claim9_amended rosterW cfgW (by decide) ⟨0, by decide, by decide⟩
    ⟨false, trivialSolution⟩ (by decide)).2.2.2.1

/-- C10: the global average WAM is the integer floor division of the sum
of the elementwise-truncated WAMs by the roster size; truncation (which on
nonnegative scores is the floor) happens before any model quantity is
computed, so two raw rosters agreeing on genders, labs and truncated WAMs
yield the same canonical roster — hence identical averages and an
identical constructed model — and every sub-integer WAM difference is
discarded deterministically. -/
theorem claim10_truncation (raw raw' : List RawStudent)
    (hg : raw.map (·.gender) = raw'.map (·.gender))
    (hl : raw.map (·.lab) = raw'.map (·.lab))
    (hw : (raw.map fun s => truncToInt s.wam) = raw'.map fun s => truncToInt s.wam) :
    globalAvgWamRaw raw =
      Int.fdiv (raw.map fun s => truncToInt s.wam).sum raw.length ∧
    prepRoster raw = prepRoster raw' ∧
    globalAvgWamRaw raw = globalAvgWamRaw raw' ∧
    ∀ q : ℚ, 0 ≤ q → truncToInt q = ⌊q⌋ := by
  have hlen : raw.length = raw'.length := by
    have hx := congrArg List.length hg
    simpa using hx
  have hprep : prepRoster raw = prepRoster raw' := by
    apply List.ext_getElem (by simp [prepRoster, hlen])
    intro n h1 h2
    have hn1 : n < raw.length := by simpa [prepRoster] using h1
    have hn2 : n < raw'.length := by simpa [prepRoster] using h2
    have e1 : raw[n].gender = raw'[n].gender := by
      have hx := congrArg (fun l => l[n]?) hg
      simpa [List.getElem?_map, List.getElem?_eq_getElem, hn1, hn2] using hx
    have e2 : raw[n].lab = raw'[n].lab := by
      have hx := congrArg (fun l => l[n]?) hl
      simpa [List.getElem?_map, List.getElem?_eq_getElem, hn1, hn2] using hx
    have e3 : truncToInt raw[n].wam = truncToInt raw'[n].wam := by
      have hx := congrArg (fun l => l[n]?) hw
      simpa [List.getElem?_map, List.getElem?_eq_getElem, hn1, hn2] using hx
    simp only [prepRoster, List.getElem_map, toStudent]
    rw [e1, e2, e3]
  have hcomp : ∀ rs : List RawStudent,
      globalAvgWamRaw rs =
        Int.fdiv (rs.map fun s => truncToInt s.wam).sum rs.length := by
    intro rs
    unfold globalAvgWamRaw globalAvgWam prepRoster
    simp [List.map_map, Function.comp_def, toStudent]
  refine ⟨hcomp raw, hprep, ?_, ?_⟩
  · rw [hcomp raw, hcomp raw', hw, hlen]
  · intro q hq
    unfold truncToInt
    rw [if_pos hq]

/-- Witness for C10: rosters with raw WAMs (70.5, 70.3) and (70, 70.9)
truncate identically, so they produce the same canonical roster and the
same global average. -/
theorem claim10_truncation_witness :
    ((rawP.map fun s => truncToInt s.wam) = rawQ.map fun s => truncToInt s.wam) ∧
    prepRoster rawP = prepRoster rawQ ∧
    globalAvgWamRaw rawP = globalAvgWamRaw rawQ := by
  have hw : (rawP.map fun s => truncToInt s.wam) = rawQ.map fun s => truncToInt s.wam := by
    simp [rawP, rawQ, truncToInt]
    norm_num
  have h := claim10_truncation rawP rawQ (by simp [rawP, rawQ])
    (by simp [rawP, rawQ]) hw
  exact ⟨hw, h.2.1, h.2.2.1⟩

end TeamFormer
